import Mathlib

/-!
Verification of the storage-and-search core of the `saver` repository
(`src/saver/storage/sqlite_handler.py`, class `StorageHandler`).

The Python code is shallowly embedded as executable Lean definitions:

* Python strings are `List Char` (`Str`); `str.lower`, `str.split()`,
  `str.count`, `str.find`, substring tests and slicing are modelled by
  the `py*` functions below.  Case folding is modelled on the ASCII range
  (the repository captures keyboard text); full Unicode case folding and
  the rarely used Unicode whitespace classes are not modelled.
* Python/SQLite numeric scores are modelled as exact rationals `ℚ`;
  the scoring constants (0.8, 0.1, ...) are exact binary-unfriendly
  decimals in the source, so the rational model is the intended real
  arithmetic of the code.
* The SQLite `captures` table is a list of `Row` values; `captures_fts`
  is a list of `FtsRow` values; `ORDER BY ... DESC` is modelled as a
  stable descending sort of the table in insertion order, and `LIMIT` as
  `List.take`.  The FTS5 `MATCH`/`rank` engine is external to the
  repository, so stage 1 of the search is parametrised by the list of
  rows the index engine returns in its rank order (`indexAnswer`).
* `difflib.SequenceMatcher(None, a, b).ratio()` is modelled by
  `seqSim` below: the Ratcliff–Obershelp matching-blocks total
  (longest matching block chosen earliest in `a`, then earliest in `b`,
  recursing on both sides), with `ratio = 2·M/(|a|+|b|)`.  The autojunk
  popularity heuristic (active only when the second sequence has at
  least 200 characters) is not modelled.
-/

attribute [local semireducible] Rat.add Rat.mul Rat.inv Rat.sub Rat.ofScientific

set_option maxRecDepth 8000

namespace Saver

/-- Python strings are modelled as lists of characters. -/
abbrev Str := List Char

/-- Whitespace as used by Python `str.split()` / `str.strip()` on ASCII text:
space, tab, newline, vertical tab, form feed, carriage return. -/
def pyIsSpace (c : Char) : Bool :=
  c = ' ' || c = '\t' || c = '\n' || c = Char.ofNat 11 || c = Char.ofNat 12 || c = '\r'

/-- Test `not s.strip()`: a Python string strips to the empty string exactly
when every character is whitespace. -/
def pyStripEmpty (s : Str) : Bool :=
  s.all pyIsSpace

/-- ASCII case folding of a single character (`str.lower` on ASCII text). -/
def pyToLower (c : Char) : Char :=
  if 'A' ≤ c && c ≤ 'Z' then Char.ofNat (c.toNat + 32) else c

/-- Model of Python `s.lower()` on ASCII text. -/
def pyLower (s : Str) : Str :=
  s.map pyToLower

/-- Model of Python `s.split()` (no separator): maximal runs of
non-whitespace characters; runs of whitespace collapse, no empty words. -/
def pyWords (s : Str) : List Str :=
  (s.splitOnP pyIsSpace).filter (· ≠ [])

/-- Auxiliary scanner for `pyCount`.  The third argument is a cooldown:
after a match at position `i` the scan resumes at `i + needle.length`,
which is modelled by skipping `needle.length - 1` further positions. -/
def pyCountAux (needle : Str) : Str → Nat → Nat
  | [], _ => 0
  | _ :: hs, Nat.succ k => pyCountAux needle hs k
  | h :: hs, 0 =>
      if needle.isPrefixOf (h :: hs) then 1 + pyCountAux needle hs (needle.length - 1)
      else pyCountAux needle hs 0

/-- Model of Python `hay.count(needle)`: number of non-overlapping
occurrences of `needle` in `hay`, scanning left to right.
(`"".count("") = 1`, `hay.count("") = len(hay) + 1`.) -/
def pyCount (hay needle : Str) : Nat :=
  if needle = [] then hay.length + 1 else pyCountAux needle hay 0

/-- Model of Python `hay.find(needle)`: index of the first occurrence of
`needle` in `hay`, or `none` where Python returns `-1`. -/
def pyFind (hay needle : Str) : Option Nat :=
  match hay with
  | [] => if needle.isPrefixOf ([] : Str) then some 0 else none
  | h :: hs =>
      if needle.isPrefixOf (h :: hs) then some 0
      else (pyFind hs needle).map (· + 1)

/-- Model of Python `needle in hay` (substring containment). -/
def pyContainsSub (hay needle : Str) : Bool :=
  (pyFind hay needle).isSome

/-- Strict lexicographic comparison of strings by code point, as Python
compares `str` values and SQLite compares `TEXT` values. -/
def strLtB : Str → Str → Bool
  | [], [] => false
  | [], _ :: _ => true
  | _ :: _, [] => false
  | a :: as, b :: bs => if a < b then true else if b < a then false else strLtB as bs

/-- Non-strict lexicographic comparison of strings. -/
def strLeB (a b : Str) : Bool :=
  !(strLtB b a)

/-- Length of the longest common prefix of two character lists. -/
def commonRun : Str → Str → Nat
  | a :: as, b :: bs => if a = b then commonRun as bs + 1 else 0
  | _, _ => 0

/-- Length of the matching run of `a` and `b` starting at positions
`i`/`j`, clipped to the half-open windows `[i, ahi)` and `[j, bhi)`. -/
def matchLenAt (a b : Str) (ahi bhi i j : Nat) : Nat :=
  commonRun ((a.drop i).take (ahi - i)) ((b.drop j).take (bhi - j))

/-- All candidate matching runs inside the windows `[alo, ahi) × [blo, bhi)`,
enumerated in lexicographic order of start positions `(i, j)`. -/
def candidateRuns (a b : Str) (alo ahi blo bhi : Nat) : List (Nat × Nat × Nat) :=
  (List.range' alo (ahi - alo)).flatMap fun i =>
    (List.range' blo (bhi - blo)).map fun j => (i, j, matchLenAt a b ahi bhi i j)

/-- Pick the first candidate of maximal run length (strict improvement only,
so the earliest start in `a`, then in `b`, wins — exactly the block
`difflib.SequenceMatcher.find_longest_match` returns when no junk is set). -/
def pickBest (alo blo : Nat) (cands : List (Nat × Nat × Nat)) : Nat × Nat × Nat :=
  cands.foldl (fun best c => if best.2.2 < c.2.2 then c else best) (alo, blo, 0)

/-- Model of `difflib.SequenceMatcher.find_longest_match` (no junk, no
autojunk): the longest matching block in the given windows, earliest in `a`
and then earliest in `b`; `(alo, blo, 0)` when the windows share nothing. -/
def findLongestMatch (a b : Str) (alo ahi blo bhi : Nat) : Nat × Nat × Nat :=
  pickBest alo blo (candidateRuns a b alo ahi blo bhi)

/-- Total number of matched characters over all matching blocks of
`difflib.SequenceMatcher.get_matching_blocks`: the recursion takes the longest
block and recurses on the fragments to its left and to its right.  The fuel
argument only drives termination; `|a| + |b| + 1` always suffices because
each recursive window is strictly smaller. -/
def matchTotal (a b : Str) : Nat → Nat → Nat → Nat → Nat → Nat
  | 0, _, _, _, _ => 0
  | fuel + 1, alo, ahi, blo, bhi =>
      let m := findLongestMatch a b alo ahi blo bhi
      if m.2.2 = 0 then 0
      else
        m.2.2 + matchTotal a b fuel alo m.1 blo m.2.1 +
          matchTotal a b fuel (m.1 + m.2.2) ahi (m.2.1 + m.2.2) bhi

/-- Model of `difflib.SequenceMatcher(None, a, b).ratio()` (autojunk not
modelled; it is inactive for second sequences shorter than 200 characters):
`2·M / (|a| + |b|)` where `M` is the matching-blocks total, and `1.0` for two
empty sequences. -/
def seqSim (a b : Str) : ℚ :=
  if a.length + b.length = 0 then 1
  else 2 * (matchTotal a b (a.length + b.length + 1) 0 a.length 0 b.length : ℚ) /
    (a.length + b.length : ℚ)

theorem commonRun_le_left : ∀ a b : Str, commonRun a b ≤ a.length := by
  intro a
  induction a with
  | nil => intro b; simp [commonRun]
  | cons x xs ih =>
      intro b
      cases b with
      | nil => simp [commonRun]
      | cons y ys =>
          simp only [commonRun, List.length_cons]
          split
          · exact Nat.succ_le_succ (ih ys)
          · exact Nat.zero_le _

theorem commonRun_le_right : ∀ a b : Str, commonRun a b ≤ b.length := by
  intro a
  induction a with
  | nil => intro b; simp [commonRun]
  | cons x xs ih =>
      intro b
      cases b with
      | nil => simp [commonRun]
      | cons y ys =>
          simp only [commonRun, List.length_cons]
          split
          · exact Nat.succ_le_succ (ih ys)
          · exact Nat.zero_le _

theorem matchLenAt_le_left (a b : Str) (ahi bhi i j : Nat) :
    matchLenAt a b ahi bhi i j ≤ ahi - i := by
  calc matchLenAt a b ahi bhi i j ≤ ((a.drop i).take (ahi - i)).length :=
        commonRun_le_left _ _
    _ ≤ ahi - i := by simp [List.length_take]

theorem matchLenAt_le_right (a b : Str) (ahi bhi i j : Nat) :
    matchLenAt a b ahi bhi i j ≤ bhi - j := by
  calc matchLenAt a b ahi bhi i j ≤ ((b.drop j).take (bhi - j)).length :=
        commonRun_le_right _ _
    _ ≤ bhi - j := by simp [List.length_take]

theorem pickBest_eq_or_mem (alo blo : Nat) (cands : List (Nat × Nat × Nat)) :
    pickBest alo blo cands = (alo, blo, 0) ∨ pickBest alo blo cands ∈ cands := by
  unfold pickBest
  generalize hinit : ((alo, blo, 0) : Nat × Nat × Nat) = init
  clear hinit
  induction cands generalizing init with
  | nil => exact Or.inl rfl
  | cons c cs ih =>
      simp only [List.foldl_cons]
      rcases ih (if init.2.2 < c.2.2 then c else init) with h | h
      · by_cases hc : init.2.2 < c.2.2
        · right; rw [h]; simp [hc]
        · left; rw [h]; simp [hc]
      · right; exact List.mem_cons_of_mem _ h

theorem candidateRuns_facts {a b : Str} {alo ahi blo bhi : Nat}
    {c : Nat × Nat × Nat} (hc : c ∈ candidateRuns a b alo ahi blo bhi) :
    alo ≤ c.1 ∧ c.1 < alo + (ahi - alo) ∧ blo ≤ c.2.1 ∧ c.2.1 < blo + (bhi - blo) ∧
      c.2.2 ≤ ahi - c.1 ∧ c.2.2 ≤ bhi - c.2.1 := by
  simp only [candidateRuns, List.mem_flatMap, List.mem_map] at hc
  obtain ⟨i, hi, j, hj, rfl⟩ := hc
  rw [List.mem_range'_1] at hi hj
  exact ⟨hi.1, hi.2, hj.1, hj.2, matchLenAt_le_left a b ahi bhi i j,
    matchLenAt_le_right a b ahi bhi i j⟩

theorem matchTotal_le (a b : Str) :
    ∀ fuel alo ahi blo bhi,
      matchTotal a b fuel alo ahi blo bhi ≤ min (ahi - alo) (bhi - blo) := by
  intro fuel
  induction fuel with
  | zero => intro alo ahi blo bhi; simp [matchTotal]
  | succ n ih =>
      intro alo ahi blo bhi
      simp only [matchTotal]
      split
      · exact Nat.zero_le _
      · rename_i hk
        rcases pickBest_eq_or_mem alo blo (candidateRuns a b alo ahi blo bhi) with h | h
        all_goals rw [show pickBest alo blo (candidateRuns a b alo ahi blo bhi) =
          findLongestMatch a b alo ahi blo bhi from rfl] at h
        · exact absurd (by rw [h]) hk
        · obtain ⟨h1, h2, h3, h4, h5, h6⟩ := candidateRuns_facts h
          have l1 := ih alo (findLongestMatch a b alo ahi blo bhi).1 blo
            (findLongestMatch a b alo ahi blo bhi).2.1
          have l2 := ih ((findLongestMatch a b alo ahi blo bhi).1 +
              (findLongestMatch a b alo ahi blo bhi).2.2) ahi
            ((findLongestMatch a b alo ahi blo bhi).2.1 +
              (findLongestMatch a b alo ahi blo bhi).2.2) bhi
          omega

theorem seqSim_nonneg (a b : Str) : 0 ≤ seqSim a b := by
  unfold seqSim
  split
  · norm_num
  · rename_i h
    apply div_nonneg
    · positivity
    · positivity

theorem seqSim_le_one (a b : Str) : seqSim a b ≤ 1 := by
  unfold seqSim
  split
  · norm_num
  · rename_i h
    have hM : matchTotal a b (a.length + b.length + 1) 0 a.length 0 b.length ≤
        min a.length b.length := by
      simpa using matchTotal_le a b (a.length + b.length + 1) 0 a.length 0 b.length
    have h2 : 2 * (matchTotal a b (a.length + b.length + 1) 0 a.length 0 b.length) ≤
        a.length + b.length := by omega
    have hpos : (0 : ℚ) < (a.length : ℚ) + (b.length : ℚ) := by
      have hlt : 0 < a.length + b.length := Nat.pos_of_ne_zero h
      exact_mod_cast hlt
    rw [div_le_one hpos]
    calc (2 : ℚ) * (matchTotal a b (a.length + b.length + 1) 0 a.length 0 b.length : ℚ)
        = ((2 * matchTotal a b (a.length + b.length + 1) 0 a.length 0 b.length : ℕ) : ℚ) := by
          push_cast; ring
      _ ≤ ((a.length + b.length : ℕ) : ℚ) := by exact_mod_cast Nat.cast_le.mpr h2
      _ = (a.length : ℚ) + (b.length : ℚ) := by push_cast; ring

example : seqSim ("abcd".data) ("abcd".data) = 1 := by decide
example : seqSim ("abcd".data) ("bc".data) = 2/3 := by decide
example : seqSim ("xhello".data) ("hello world".data) = 10/17 := by decide

/-- Model of `StorageHandler._calculate_fts_score` (sqlite_handler.py
lines 384-406): base 0.8, plus `min(0.1 · count, 0.2)` for non-overlapping
occurrences of the full lowercased query, plus 0.1 times the fraction of
query words occurring as substrings of the lowercased content, capped at 1.
The `fts_rank` argument is accepted and ignored, as in the source. -/
def calcFtsScore (content query : Str) (_ftsRank : ℚ) : ℚ :=
  let contentLower := pyLower content
  let queryLower := pyLower query
  let exactMatches := pyCount contentLower queryLower
  let queryWords := pyWords queryLower
  let wordMatches := queryWords.countP (fun w => pyContainsSub contentLower w)
  let baseScore : ℚ := 0.8
  let exactBoost := min ((exactMatches : ℚ) * 0.1) 0.2
  let wordCoverage : ℚ :=
    if queryWords.length = 0 then 0 else (wordMatches : ℚ) / (queryWords.length : ℚ)
  let wordBoost := wordCoverage * 0.1
  min (baseScore + exactBoost + wordBoost) 1

/-- Model of `StorageHandler._calculate_fuzzy_score` (sqlite_handler.py
lines 408-435).  As in the source, `content` and `query` arrive already
lowercased and `queryWords` is the set `set(query.split())`, modelled as a
duplicate-free list; `contentWords` is consulted only through membership, so
the list of content words stands in for `set(content.split())`. -/
def calcFuzzyScore (content query : Str) (queryWords : List Str) : ℚ :=
  let sequenceSimilarity := seqSim content query
  let contentWords := pyWords content
  let wordOverlap : ℚ :=
    if queryWords.length = 0 then 0
    else ((queryWords.countP fun w => contentWords.contains w : ℕ) : ℚ) /
      (queryWords.length : ℚ)
  let subwordMatches :=
    queryWords.countP fun w => decide (3 ≤ w.length) && contentWords.any fun c => pyContainsSub c w
  let subwordScore : ℚ :=
    if queryWords.length = 0 then 0 else (subwordMatches : ℚ) / (queryWords.length : ℚ)
  sequenceSimilarity * 0.3 + wordOverlap * 0.5 + subwordScore * 0.2

/-- The fuzzy similarity score as `StorageHandler._fuzzy_search_fallback`
(sqlite_handler.py lines 345-353) wires it up: content and query are
lowercased and the query-word set is built from the lowercased query. -/
def fallbackScore (content query : Str) : ℚ :=
  calcFuzzyScore (pyLower content) (pyLower query) ((pyWords (pyLower query)).dedup)

/-- The three-character ellipsis the snippet extractor attaches. -/
def dots : Str := "...".data

/-- Model of `StorageHandler._extract_snippet` (sqlite_handler.py lines
437-474): find the first case-insensitive occurrence of the query (falling
back to the first query word), centre a `snipLen`-character window on it
(about one third before, two thirds after, clamped to the content), and mark
truncation with an ellipsis on each truncated side.  Python's
`max(0, i - j)` on ints coincides with truncated subtraction on `ℕ`.
The position search (sqlite_handler.py lines 446-452) first looks for the
whole query, then for the first query word. -/
def bestMatchPos (contentLower queryLower : Str) : Option Nat :=
  match pyFind contentLower queryLower with
  | some p => some p
  | none =>
      match pyWords queryLower with
      | [] => none
      | w :: _ => pyFind contentLower w

def extractSnippet (content query : Str) (snipLen : Nat) : Str :=
  if pyStripEmpty query then
    content.take snipLen ++ (if snipLen < content.length then dots else [])
  else
    match bestMatchPos (pyLower content) (pyLower query) with
    | none => content.take snipLen ++ (if snipLen < content.length then dots else [])
    | some pos =>
        let start := pos - snipLen / 3
        let stop := min content.length (start + snipLen)
        let start2 := if stop - start < snipLen then stop - snipLen else start
        let snip := (content.drop start2).take (stop - start2)
        (if 0 < start2 then dots else []) ++ snip ++
          (if stop < content.length then dots else [])

example : calcFtsScore ("worldly things".data) ("hello world".data) 0 = 17/20 := by decide
example : calcFtsScore ("hello world hello world".data) ("hello world".data) 0 = 1 := by decide
example : fallbackScore ("say hello please".data) ("hello world".data) = 91/180 := by decide
example : fallbackScore ("xhello".data) ("hello world".data) = 47/170 := by decide
example : fallbackScore ("ab cde".data) ("cde x".data) = 113/220 := by decide
example : extractSnippet ("abcdefghijklmnopqrstuvwxyz".data) ("mno".data) 10 =
  "...jklmnopqrs...".data := by decide
example : extractSnippet ("abcdefghijklmnopqrstuvwxyz".data) ("abc".data) 10 =
  "abcdefghij...".data := by decide
example : extractSnippet ("abcdefghijklmnopqrstuvwxyz".data) ("zzz".data) 10 =
  "abcdefghij...".data := by decide
example : extractSnippet ("abcdefgh".data) ("def".data) 10 = "abcdefgh".data := by decide
example : extractSnippet ("abcdefghijklmnopqrstuvwxyz".data) ("xyz".data) 10 =
  "...qrstuvwxyz".data := by decide

/-- A row of the `captures` table: identifier, application name, content,
start/end timestamps, character and word counts, creation timestamp.
Timestamps are the ISO strings actually stored, compared as text both by
SQLite (`TEXT` memcmp) and by Python's tuple sort. -/
structure Row where
  id : Nat
  app : Str
  content : Str
  startTime : Str
  endTime : Str
  charCount : Nat
  wordCount : Nat
  created : Str
deriving DecidableEq

/-- A row of the `captures_fts` full-text index table. -/
structure FtsRow where
  id : Nat
  app : Str
  content : Str
  created : Str
deriving DecidableEq

/-- A search result: the capture row together with the relevance score and
snippet the search attaches to it. -/
structure SearchResult where
  row : Row
  score : ℚ
  snippet : Str
deriving DecidableEq

/-- Python truthiness of the `app_filter` argument: `None` and the empty
string disable the `app_name = ?` clause. -/
def appCond (appFilter : Option Str) (r : Row) : Bool :=
  match appFilter with
  | none => true
  | some a => if a = [] then true else r.app == a

/-- Ordering used to model `ORDER BY created_at DESC`: `a` may precede `b`
when `a.created ≥ b.created`; a stable insertion sort under this relation is
the list semantics of the SQL ordering (rows with equal keys are kept in
table order; SQL itself leaves that tie order unspecified). -/
abbrev createdDescRel (a b : Row) : Prop := strLeB b.created a.created = true

/-- Stable descending sort of table rows by creation timestamp. -/
def sortByCreatedDesc (l : List Row) : List Row :=
  List.insertionSort createdDescRel l

/-- Ordering of `sorted(results, key=lambda x: x["relevance_score"],
reverse=True)` in the fuzzy fallback: descending by score, stable. -/
abbrev scoreDescRel (a b : SearchResult) : Prop := b.score ≤ a.score

/-- Ordering of the final merge sort `sorted(fts_results, key=lambda x:
(x["relevance_score"], x["created_at"]), reverse=True)`: descending in the
lexicographic key (score, creation timestamp), stable. -/
abbrev mergeKeyRel (a b : SearchResult) : Prop :=
  b.score < a.score ∨ (b.score = a.score ∧ strLeB b.row.created a.row.created = true)

/-- Build the result record the search stages produce for a row. -/
def mkResult (query : Str) (r : Row) (score : ℚ) : SearchResult :=
  { row := r, score := score, snippet := extractSnippet r.content query 200 }

/-- Model of `StorageHandler._fts_search` (sqlite_handler.py lines 279-323).
The FTS5 engine is external to the repository, so the rows matching the
prepared `MATCH` query, in the engine's `ORDER BY rank, created_at DESC`
order, enter the model as the parameter `indexAnswer`; the SQL then filters
by application name and truncates to `lim`.  The scorer ignores its
`fts_rank` argument, so `0` stands in for the engine rank. -/
def ftsSearch (indexAnswer : List Row) (query : Str) (lim : Nat)
    (appFilter : Option Str) : List SearchResult :=
  ((indexAnswer.filter (appCond appFilter)).take lim).map fun r =>
    mkResult query r (calcFtsScore r.content query 0)

/-- Model of `StorageHandler._fuzzy_search_fallback` (sqlite_handler.py
lines 325-371): take the `lim * 3` most recent (optionally app-filtered)
rows, score each, keep those with score at least `min_score`, and return the
top `lim` by score. -/
def fuzzyFallback (tableRows : List Row) (query : Str) (lim : Nat)
    (appFilter : Option Str) (minScore : ℚ) : List SearchResult :=
  let candidates := (sortByCreatedDesc (tableRows.filter (appCond appFilter))).take (lim * 3)
  let results := candidates.filterMap fun r =>
    let s := fallbackScore r.content query
    if minScore ≤ s then some (mkResult query r s) else none
  (List.insertionSort scoreDescRel results).take lim

/-- Model of `StorageHandler.fuzzy_search` (sqlite_handler.py lines
233-277): empty-after-strip queries short-circuit to `[]`; otherwise stage 1
queries the index, stage 2 runs only on a shortfall and its results are
appended unless their id was already returned; the combined list is sorted
by (score, creation timestamp) descending and truncated to `lim`. -/
def fuzzySearch (indexAnswer tableRows : List Row) (query : Str) (lim : Nat)
    (appFilter : Option Str) (minScore : ℚ) : List SearchResult :=
  if pyStripEmpty query then []
  else
    let ftsResults := ftsSearch indexAnswer query lim appFilter
    let combined :=
      if ftsResults.length < lim then
        let fuzzyResults :=
          fuzzyFallback tableRows query (lim - ftsResults.length) appFilter minScore
        ftsResults ++ fuzzyResults.filter fun r =>
          !(ftsResults.any fun f => f.row.id == r.row.id)
      else ftsResults
    (List.insertionSort mergeKeyRel combined).take lim

/-- The mapping a caller passes to `save_capture`: a Python dict whose
required keys may be absent.  A missing key raises `KeyError` while the
`INSERT` arguments are being built, before any commit, so the save fails
with the state unchanged. -/
structure BufferInfo where
  appName : Option Str
  content : Option Str
  startTime : Option Str
  endTime : Option Str
  charCount : Option Nat
  wordCount : Option Nat
deriving DecidableEq

/-- A buffer entry is complete when every required field is present. -/
def BufferInfo.complete (b : BufferInfo) : Bool :=
  b.appName.isSome && b.content.isSome && b.startTime.isSome && b.endTime.isSome &&
    b.charCount.isSome && b.wordCount.isSome

/-- The persistent store: the `captures` table, the `captures_fts` table and
the next `AUTOINCREMENT` rowid. -/
structure DbState where
  rows : List Row
  fts : List FtsRow
  nextId : Nat
deriving DecidableEq

/-- The index entry derived from a capture row. -/
def rowToFts (r : Row) : FtsRow :=
  ⟨r.id, r.app, r.content, r.created⟩

/-- Model of the reconciliation part of `StorageHandler._init_db`
(sqlite_handler.py lines 52-67): if the index row count disagrees with the
captures row count, clear the index and repopulate it from the captures. -/
def initDb (st : DbState) : DbState :=
  if st.fts.length = st.rows.length then st
  else { st with fts := st.rows.map rowToFts }

/-- Model of `StorageHandler.save_capture` (sqlite_handler.py lines 70-108):
a complete entry inserts the capture row and its index row in one committed
transaction and returns `True`; an incomplete entry raises before the
commit, leaving the state unchanged, and returns `False`.  `now` stands for
`datetime.now().isoformat()`. -/
def saveCapture (st : DbState) (b : BufferInfo) (now : Str) : Bool × DbState :=
  match b.appName, b.content, b.startTime, b.endTime, b.charCount, b.wordCount with
  | some app, some content, some s, some e, some cc, some wc =>
      (true,
        { rows := st.rows ++ [⟨st.nextId, app, content, s, e, cc, wc, now⟩],
          fts := st.fts ++ [⟨st.nextId, app, content, now⟩],
          nextId := st.nextId + 1 })
  | _, _, _, _, _, _ => (false, st)

/-- Step function of `save_multiple_captures`: attempt one entry, counting a
success. -/
def saveStep (now : Str) (acc : Nat × DbState) (it : Str × BufferInfo) : Nat × DbState :=
  let r := saveCapture acc.2 it.2 now
  (if r.1 then acc.1 + 1 else acc.1, r.2)

/-- Model of `StorageHandler.save_multiple_captures` (sqlite_handler.py
lines 110-117): attempt each entry of the mapping in insertion order,
counting the successes. -/
def saveMultiple (st : DbState) (items : List (Str × BufferInfo)) (now : Str) :
    Nat × DbState :=
  items.foldl (saveStep now) (0, st)

/-- Model of `StorageHandler.get_recent_captures` (sqlite_handler.py lines
119-149): the rows ordered by creation timestamp descending, truncated to
`lim`. -/
def getRecent (st : DbState) (lim : Nat) : List Row :=
  (sortByCreatedDesc st.rows).take lim

example : pyWords ("  git  commit ".data) = ["git".data, "commit".data] := by decide
example : pyCount ("aaa".data) ("aa".data) = 1 := by decide
example : pyCount ("ab ab ab".data) ("ab".data) = 3 := by decide
example : pyFind ("xhello".data) ("hello".data) = some 1 := by decide
example : pyFind ("abc".data) ("z".data) = none := by decide
example : pyStripEmpty ("  ".data) = true := by decide
example : pyLower ("Hello".data) = "hello".data := by decide
example : strLeB ("abc".data) ("abd".data) = true := by decide
example : pyContainsSub ("xhello".data) ("hell".data) = true := by decide

/-! Concrete fixtures used by witnesses and counterexamples. -/

/-- A capture whose content is exactly the demo query, created later than
`rowXhello`. -/
def rowHello : Row :=
  ⟨1, "app".data, "hello world".data, "2024-01-02T10:00:00".data,
    "2024-01-02T10:05:00".data, 11, 2, "2024-01-02T10:05:00".data⟩

/-- A capture whose content contains the first query word only as a proper
substring of a longer token, created earlier than `rowHello`. -/
def rowXhello : Row :=
  ⟨2, "app".data, "xhello".data, "2024-01-01T10:00:00".data,
    "2024-01-01T10:05:00".data, 6, 1, "2024-01-01T10:05:00".data⟩

/-- A capture containing the second query word only as a prefix of a longer
token. -/
def rowWorldly : Row :=
  ⟨3, "app".data, "worldly things".data, "2024-01-03T10:00:00".data,
    "2024-01-03T10:05:00".data, 14, 2, "2024-01-03T10:05:00".data⟩

/-- The demo query. -/
def helloQuery : Str := "hello world".data

/-- A whitespace-only query. -/
def wsQuery : Str := "   ".data

/-- A complete buffer entry. -/
def goodInfo : BufferInfo :=
  ⟨some ("App1".data), some ("Valid content".data), some ("2024-01-01T12:00:00".data),
    some ("2024-01-01T12:05:00".data), some 13, some 2⟩

/-- A malformed buffer entry missing most required fields. -/
def badInfo : BufferInfo :=
  ⟨none, some ("data".data), none, none, none, none⟩

/-- The demo save timestamp. -/
def demoNow : Str := "2024-02-01T09:00:00".data

/-! ### C6 — empty or whitespace-only queries -/

/-- C6: for every store state (both the index answer and the captures table
are arbitrary) and every query that strips to the empty string,
`fuzzy_search` returns the empty list immediately; the result does not
depend on the store, which is the observable content of "no store access". -/
theorem c6_whitespace_query_returns_empty
    (indexAnswer tableRows : List Row) (query : Str) (lim : Nat)
    (appFilter : Option Str) (minScore : ℚ) (h : pyStripEmpty query = true) :
    fuzzySearch indexAnswer tableRows query lim appFilter minScore = [] := by
  unfold fuzzySearch
  rw [if_pos h]

/-- Witness for C6 at a concrete whitespace query and a non-empty store. -/
theorem c6_whitespace_query_returns_empty_witness :
    pyStripEmpty wsQuery = true ∧
      fuzzySearch [rowHello] [rowHello, rowXhello] wsQuery 50 none 0.3 = [] :=
  ⟨by decide,
    c6_whitespace_query_returns_empty [rowHello] [rowHello, rowXhello] wsQuery 50 none 0.3
      (by decide)⟩

/-! ### C7 — the index-count invariant -/

/-- The invariant `count(IndexEntries) == count(Captures)`. -/
def countInv (st : DbState) : Prop :=
  st.fts.length = st.rows.length

theorem saveCapture_countInv (st : DbState) (b : BufferInfo) (now : Str)
    (h : countInv st) : countInv (saveCapture st b now).2 := by
  rcases b with ⟨a, c, s, e, cc, wc⟩
  cases a <;> cases c <;> cases s <;> cases e <;> cases cc <;> cases wc <;>
    simpa [saveCapture, countInv] using h

theorem foldl_saveStep_countInv (now : Str) :
    ∀ (items : List (Str × BufferInfo)) (acc : Nat × DbState), countInv acc.2 →
      countInv (items.foldl (saveStep now) acc).2 := by
  intro items
  induction items with
  | nil => intro acc h; exact h
  | cons it rest ih =>
      intro acc h
      rw [List.foldl_cons]
      exact ih _ (saveCapture_countInv acc.2 it.2 now h)

/-- C7: store initialization rebuilds the index exactly when the counts
disagree, establishing `count(IndexEntries) = count(Captures)`; a save —
successful or failed — preserves the invariant because the capture row and
its index row are inserted in the same transaction; hence every sequence of
saves preserves it. -/
theorem c7_index_count_invariant :
    (∀ st : DbState, countInv (initDb st)) ∧
    (∀ (st : DbState) (b : BufferInfo) (now : Str),
      countInv st → countInv (saveCapture st b now).2) ∧
    (∀ (st : DbState) (items : List (Str × BufferInfo)) (now : Str),
      countInv st → countInv (saveMultiple st items now).2) := by
  refine ⟨?_, ?_, ?_⟩
  · intro st
    unfold initDb countInv
    split
    · assumption
    · simp
  · exact saveCapture_countInv
  · intro st items now h
    exact foldl_saveStep_countInv now items (0, st) h

/-- Witness for C7: a concrete initially-inconsistent store is healed by
initialization, and a concrete sequence of saves (one valid, one malformed)
keeps the invariant. -/
theorem c7_index_count_invariant_witness :
    countInv (initDb ⟨[rowHello], [], 2⟩) ∧
      countInv (saveMultiple (initDb ⟨[rowHello], [], 2⟩)
        [("App1".data, goodInfo), ("Bad".data, badInfo)] demoNow).2 :=
  ⟨c7_index_count_invariant.1 ⟨[rowHello], [], 2⟩,
    c7_index_count_invariant.2.2 (initDb ⟨[rowHello], [], 2⟩)
      [("App1".data, goodInfo), ("Bad".data, badInfo)] demoNow
      (by simp only [countInv]; decide)⟩

/-! ### C9 — independent best-effort saves -/

/-- The capture rows a list of buffered entries adds to the store, with
identifiers assigned sequentially to the complete entries only. -/
def newRows (id0 : Nat) (now : Str) : List (Str × BufferInfo) → List Row
  | [] => []
  | (_, b) :: rest =>
      match b.appName, b.content, b.startTime, b.endTime, b.charCount, b.wordCount with
      | some app, some content, some s, some e, some cc, some wc =>
          ⟨id0, app, content, s, e, cc, wc, now⟩ :: newRows (id0 + 1) now rest
      | _, _, _, _, _, _ => newRows id0 now rest

theorem foldl_saveStep_spec (now : Str) :
    ∀ (items : List (Str × BufferInfo)) (st : DbState) (n : Nat),
      (items.foldl (saveStep now) (n, st)).1 =
        n + (items.filter fun it => it.2.complete).length ∧
      (items.foldl (saveStep now) (n, st)).2.rows = st.rows ++ newRows st.nextId now items := by
  intro items
  induction items with
  | nil => intro st n; simp [newRows]
  | cons it rest ih =>
      intro st n
      obtain ⟨nm, b⟩ := it
      rcases b with ⟨a, c, s, e, cc, wc⟩
      cases a <;> cases c <;> cases s <;> cases e <;> cases cc <;> cases wc <;>
        · rw [List.foldl_cons]
          refine ⟨?_, ?_⟩ <;>
            simp [saveStep, saveCapture, BufferInfo.complete, newRows, (ih _ _).1, (ih _ _).2,
              List.filter_cons] <;> omega

/-- C9: `save_many` attempts every entry independently and returns the
number of complete entries saved; the rows added are exactly those of the
complete entries, and every added row is retrievable through `recent` once
the limit covers the table. -/
theorem c9_save_many_independent (st : DbState) (items : List (Str × BufferInfo)) (now : Str) :
    (saveMultiple st items now).1 = (items.filter fun it => it.2.complete).length ∧
    (saveMultiple st items now).2.rows = st.rows ++ newRows st.nextId now items ∧
    ∀ (lim : Nat) (r : Row), (saveMultiple st items now).2.rows.length ≤ lim →
      r ∈ newRows st.nextId now items →
      r ∈ getRecent (saveMultiple st items now).2 lim := by
  have h := foldl_saveStep_spec now items st 0
  refine ⟨by simpa [saveMultiple] using h.1, by simpa [saveMultiple] using h.2, ?_⟩
  intro lim r hlen hr
  have hrows : r ∈ (saveMultiple st items now).2.rows := by
    have h2 : (saveMultiple st items now).2.rows = st.rows ++ newRows st.nextId now items := by
      simpa [saveMultiple] using h.2
    rw [h2]
    exact List.mem_append_right _ hr
  unfold getRecent sortByCreatedDesc
  rw [List.take_of_length_le]
  · exact (List.perm_insertionSort createdDescRel _).mem_iff.mpr hrows
  · rw [(List.perm_insertionSort createdDescRel _).length_eq]
    exact hlen

/-- Witness for C9, the scenario of the claim: a mapping with one valid and
one malformed entry yields count 1 and the valid capture is retrievable. -/
theorem c9_save_many_independent_witness :
    (saveMultiple ⟨[], [], 1⟩ [("App1".data, goodInfo), ("Bad".data, badInfo)] demoNow).1 = 1 ∧
      (⟨1, "App1".data, "Valid content".data, "2024-01-01T12:00:00".data,
          "2024-01-01T12:05:00".data, 13, 2, demoNow⟩ : Row) ∈
        getRecent (saveMultiple ⟨[], [], 1⟩
          [("App1".data, goodInfo), ("Bad".data, badInfo)] demoNow).2 50 := by
  have h := c9_save_many_independent ⟨[], [], 1⟩
    [("App1".data, goodInfo), ("Bad".data, badInfo)] demoNow
  refine ⟨by rw [h.1]; decide, ?_⟩
  exact h.2.2 50 _ (by decide) (by decide)

/-! ### C2 — the Stage 1 lexical score -/

/-- Claim C2's description of the Stage 1 score, written from the claim:
`min(0.8 + min(0.1 · occurrences, 0.2) + 0.1 · presentFraction, 1.0)`,
where `occurrences` counts exact case-insensitive occurrences of the full
query in the content and `presentFraction` is the fraction of query words
present (as substrings) in the content. -/
def ftsScoreClaimed (content query : Str) : ℚ :=
  let occurrences := pyCount (pyLower content) (pyLower query)
  let qwords := pyWords (pyLower query)
  let presentFrac : ℚ :=
    if qwords.length = 0 then 0
    else ((qwords.countP fun w => pyContainsSub (pyLower content) w : ℕ) : ℚ) /
      (qwords.length : ℚ)
  min (0.8 + min (0.1 * (occurrences : ℚ)) 0.2 + 0.1 * presentFrac) 1

/-- C2: the Stage 1 relevance score is exactly the claimed formula, and it
always lies in `[0.8, 1.0]` (for any rank value the engine supplies). -/
theorem c2_fts_score_formula (content query : Str) (rank : ℚ) :
    calcFtsScore content query rank = ftsScoreClaimed content query ∧
    0.8 ≤ calcFtsScore content query rank ∧ calcFtsScore content query rank ≤ 1 := by
  have hfrac : (0 : ℚ) ≤
      (if (pyWords (pyLower query)).length = 0 then (0 : ℚ)
       else (((pyWords (pyLower query)).countP fun w =>
          pyContainsSub (pyLower content) w : ℕ) : ℚ) / ((pyWords (pyLower query)).length : ℚ)) := by
    split
    · exact le_refl 0
    · positivity
  have hboost : (0 : ℚ) ≤ min (0.1 * (pyCount (pyLower content) (pyLower query) : ℚ)) 0.2 :=
    le_min (by positivity) (by norm_num)
  refine ⟨?_, ?_, ?_⟩
  · simp only [calcFtsScore, ftsScoreClaimed]
    ring_nf
  · simp only [calcFtsScore]
    refine le_min ?_ (by norm_num)
    have h1 : (0 : ℚ) ≤ min ((pyCount (pyLower content) (pyLower query) : ℚ) * 0.1) 0.2 :=
      le_min (by positivity) (by norm_num)
    nlinarith [hfrac]
  · simp only [calcFtsScore]
    exact min_le_right _ _

/-! ### C3 — the fuzzy fallback similarity score -/

theorem pyContainsSub_iff (hay needle : Str) : pyContainsSub hay needle = true ↔ needle <:+: hay := by
  induction hay with
  | nil =>
      simp only [pyContainsSub, pyFind, List.infix_nil]
      constructor
      · intro h
        by_cases hp : needle.isPrefixOf ([] : Str) = true
        · exact List.prefix_nil.mp (List.isPrefixOf_iff_prefix.mp hp)
        · simp [hp] at h
      · intro h
        subst h
        simp [List.isPrefixOf]
  | cons x xs ih =>
      simp only [pyContainsSub, pyFind]
      by_cases hp : needle.isPrefixOf (x :: xs) = true
      · rw [if_pos hp]
        simp only [Option.isSome_some, true_iff]
        exact (List.isPrefixOf_iff_prefix.mp hp).isInfix
      · rw [if_neg hp]
        have hmap : (Option.map (fun x => x + 1) (pyFind xs needle)).isSome =
            (pyFind xs needle).isSome := by
          cases pyFind xs needle <;> rfl
        rw [hmap, show (pyFind xs needle).isSome = pyContainsSub xs needle from rfl]
        rw [ih, List.infix_cons_iff]
        constructor
        · exact Or.inr
        · rintro (h | h)
          · exact absurd (List.isPrefixOf_iff_prefix.mpr h) hp
          · exact h

/-- Claim C3's description of the fallback similarity score, written from
the claim: `0.3 · ratio + 0.5 · wholeWordFraction + 0.2 · subwordFraction`,
all computed case-insensitively, where `wholeWordFraction` is the fraction
of (distinct) query words occurring verbatim as whole whitespace-delimited
words of the content and `subwordFraction` the fraction of (distinct) query
words that have length at least 3 and occur as a substring of some content
word. -/
def fuzzyScoreClaimed (content query : Str) : ℚ :=
  let qwords := (pyWords (pyLower query)).dedup
  let cwords := pyWords (pyLower content)
  let n := qwords.length
  let ratioPart := seqSim (pyLower content) (pyLower query)
  let wholeWordFrac : ℚ :=
    if n = 0 then 0
    else ((qwords.countP fun w => decide (w ∈ cwords) : ℕ) : ℚ) / (n : ℚ)
  let subwordFrac : ℚ :=
    if n = 0 then 0
    else ((qwords.countP fun w => decide (3 ≤ w.length ∧ ∃ c ∈ cwords, w <:+: c) : ℕ) : ℚ) /
      (n : ℚ)
  0.3 * ratioPart + 0.5 * wholeWordFrac + 0.2 * subwordFrac

theorem countP_eq_of_iff {α : Type} (p q : α → Bool) (l : List α)
    (h : ∀ a ∈ l, p a = q a) : l.countP p = l.countP q := by
  induction l with
  | nil => rfl
  | cons x xs ih =>
      rw [List.countP_cons, List.countP_cons, h x (List.mem_cons_self x xs),
        ih fun a ha => h a (List.mem_cons_of_mem x ha)]

/-- C3: the fallback similarity score, as the fallback wires it up, is
exactly the claimed weighted blend, and it always lies in `[0, 1]`. -/
theorem c3_fuzzy_score_formula (content query : Str) :
    fallbackScore content query = fuzzyScoreClaimed content query ∧
    0 ≤ fallbackScore content query ∧ fallbackScore content query ≤ 1 := by
  have hov : ((pyWords (pyLower query)).dedup.countP fun w =>
      (pyWords (pyLower content)).contains w) =
      ((pyWords (pyLower query)).dedup.countP fun w =>
        decide (w ∈ pyWords (pyLower content))) := by
    apply countP_eq_of_iff
    intro a _
    by_cases hm : a ∈ pyWords (pyLower content) <;> simp [hm]
  have hsub : ((pyWords (pyLower query)).dedup.countP fun w =>
      decide (3 ≤ w.length) && (pyWords (pyLower content)).any fun c => pyContainsSub c w) =
      ((pyWords (pyLower query)).dedup.countP fun w =>
        decide (3 ≤ w.length ∧ ∃ c ∈ pyWords (pyLower content), w <:+: c)) := by
    apply countP_eq_of_iff
    intro a _
    rcases h3 : decide (3 ≤ a.length) with _ | _
    · have h3' := of_decide_eq_false h3
      simp [h3, h3']
    · simp only [Bool.true_and]
      simp only [decide_eq_true_eq] at h3
      rcases hany : (pyWords (pyLower content)).any fun c => pyContainsSub c a with _ | _
      · rw [List.any_eq_false] at hany
        symm
        simp only [decide_eq_false_iff_not]
        rintro ⟨-, c, hc, hinf⟩
        exact absurd ((pyContainsSub_iff c a).mpr hinf) (by simpa using hany c hc)
      · simp only [List.any_eq_true] at hany
        obtain ⟨c, hc, hcc⟩ := hany
        symm
        simp only [decide_eq_true_eq]
        exact ⟨h3, c, hc, (pyContainsSub_iff c a).mp hcc⟩
  constructor
  · simp only [fallbackScore, calcFuzzyScore, fuzzyScoreClaimed, hov, hsub]
    ring_nf
  · have hqn : (0 : ℚ) ≤ ((pyWords (pyLower query)).dedup.length : ℚ) := by positivity
    have hb1 := seqSim_nonneg (pyLower content) (pyLower query)
    have hb2 := seqSim_le_one (pyLower content) (pyLower query)
    simp only [fallbackScore, calcFuzzyScore]
    rcases Nat.eq_zero_or_pos (pyWords (pyLower query)).dedup.length with hz | hz
    · simp only [hz, if_pos rfl]
      norm_num
      constructor <;> nlinarith
    · have hzq : (0 : ℚ) < ((pyWords (pyLower query)).dedup.length : ℚ) := by
        exact_mod_cast hz
      have hne : ¬ (pyWords (pyLower query)).dedup.length = 0 := Nat.pos_iff_ne_zero.mp hz
      simp only [hne, if_false]
      have hc1 : (0 : ℚ) ≤
          (((pyWords (pyLower query)).dedup.countP fun w =>
            (pyWords (pyLower content)).contains w : ℕ) : ℚ) /
          ((pyWords (pyLower query)).dedup.length : ℚ) := by positivity
      have hc2 : (((pyWords (pyLower query)).dedup.countP fun w =>
            (pyWords (pyLower content)).contains w : ℕ) : ℚ) /
          ((pyWords (pyLower query)).dedup.length : ℚ) ≤ 1 := by
        rw [div_le_one hzq]
        exact_mod_cast List.countP_le_length _
      have hc3 : (0 : ℚ) ≤
          (((pyWords (pyLower query)).dedup.countP fun w =>
            decide (3 ≤ w.length) && (pyWords (pyLower content)).any fun c =>
              pyContainsSub c w : ℕ) : ℚ) /
          ((pyWords (pyLower query)).dedup.length : ℚ) := by positivity
      have hc4 : (((pyWords (pyLower query)).dedup.countP fun w =>
            decide (3 ≤ w.length) && (pyWords (pyLower content)).any fun c =>
              pyContainsSub c w : ℕ) : ℚ) /
          ((pyWords (pyLower query)).dedup.length : ℚ) ≤ 1 := by
        rw [div_le_one hzq]
        exact_mod_cast List.countP_le_length _
      constructor <;> nlinarith

/-! ### C5 — snippet shape -/

/-- The final snippet window of the claim, as an interval `(start, stop)`
into the content: the window around the best match (one third of the length
before it, clamped to the content bounds, pulled back when it overruns the
end), or the `snipLen`-character prefix when no match position exists. -/
def snippetWindow (content query : Str) (snipLen : Nat) : Nat × Nat :=
  match bestMatchPos (pyLower content) (pyLower query) with
  | none => (0, min content.length snipLen)
  | some pos =>
      let start := pos - snipLen / 3
      let stop := min content.length (start + snipLen)
      let start2 := if stop - start < snipLen then stop - snipLen else start
      (start2, stop)

/-- Assembly of a snippet from a window, following the claim's words: the
window slice of the content, with a leading ellipsis iff the window does not
start at position 0 and a trailing ellipsis iff it does not reach the end of
the content. -/
def windowSnippet (content : Str) (w : Nat × Nat) : Str :=
  (if 0 < w.1 then dots else []) ++ (content.drop w.1).take (w.2 - w.1) ++
    (if w.2 < content.length then dots else [])

theorem take_min_length (l : Str) (n : Nat) : l.take (min l.length n) = l.take n := by
  rcases le_total l.length n with hc | hc
  · rw [min_eq_left hc, List.take_length, List.take_of_length_le hc]
  · rw [min_eq_right hc]

theorem snippetWindow_width_le (content query : Str) :
    (snippetWindow content query 200).2 - (snippetWindow content query 200).1 ≤ 200 := by
  rcases hb : bestMatchPos (pyLower content) (pyLower query) with _ | pos <;>
    simp only [snippetWindow, hb] <;> [skip; split] <;> omega

theorem snippetWindow_of_short (content query : Str) (hlen : content.length ≤ 200) :
    snippetWindow content query 200 = (0, content.length) := by
  rcases hb : bestMatchPos (pyLower content) (pyLower query) with _ | pos <;>
    simp only [snippetWindow, hb]
  · simp only [Prod.mk.injEq]
    exact ⟨trivial, min_eq_left hlen⟩
  · have hstop : min content.length (pos - 200 / 3 + 200) = content.length :=
      min_eq_left (by omega)
    rw [hstop]
    split
    · simp only [Prod.mk.injEq]
      exact ⟨by omega, trivial⟩
    · rename_i hge
      simp only [Prod.mk.injEq]
      exact ⟨by omega, trivial⟩

theorem windowSnippet_length_le (content : Str) (w : Nat × Nat) (hw : w.2 - w.1 ≤ 200) :
    (windowSnippet content w).length ≤ 206 := by
  unfold windowSnippet
  simp only [List.length_append, List.length_take, List.length_drop]
  have hd : dots.length = 3 := by decide
  split <;> split <;> simp only [hd, List.length_nil] <;> omega

theorem windowSnippet_full (content : Str) :
    windowSnippet content (0, content.length) = content := by
  unfold windowSnippet
  rw [if_neg (lt_irrefl 0), if_neg (lt_irrefl content.length)]
  simp

/-- C5: for every content and every query that is not whitespace-only, the
snippet is the claimed assembly of the claimed window (so each ellipsis
appears exactly when the window misses the corresponding edge of the
content), its length is at most 200 + 6, and content of at most 200
characters is returned whole, with no ellipsis. -/
theorem c5_snippet_bounds (content query : Str) (h : pyStripEmpty query = false) :
    extractSnippet content query 200 =
      windowSnippet content (snippetWindow content query 200) ∧
    (extractSnippet content query 200).length ≤ 206 ∧
    (content.length ≤ 200 → extractSnippet content query 200 = content) := by
  have heq : extractSnippet content query 200 =
      windowSnippet content (snippetWindow content query 200) := by
    unfold extractSnippet
    rw [if_neg (by simp [h])]
    rcases hb : bestMatchPos (pyLower content) (pyLower query) with _ | pos
    · simp only [snippetWindow, hb, windowSnippet]
      rw [if_neg (lt_irrefl 0)]
      simp only [List.drop_zero, Nat.sub_zero, List.nil_append, take_min_length]
      rw [if_congr (by omega : (min content.length 200 < content.length) ↔
        (200 < content.length)) rfl rfl]
    · simp only [snippetWindow, hb, windowSnippet]
  refine ⟨heq, ?_, ?_⟩
  · rw [heq]
    exact windowSnippet_length_le content _ (snippetWindow_width_le content query)
  · intro hlen
    rw [heq, snippetWindow_of_short content query hlen, windowSnippet_full]

/-- Witness for C5 at a concrete query and a short content: the snippet is
the whole content, within the length bound. -/
theorem c5_snippet_bounds_witness :
    extractSnippet ("abcdefgh".data) ("def".data) 200 = "abcdefgh".data ∧
      (extractSnippet ("abcdefgh".data) ("def".data) 200).length ≤ 206 :=
  ⟨(c5_snippet_bounds ("abcdefgh".data) ("def".data) (by decide)).2.2 (by decide),
    (c5_snippet_bounds ("abcdefgh".data) ("def".data) (by decide)).2.1⟩

/-! ### C1 — the merge of the two stages -/

/-- The final ordering as claim C1 words it: relevance score descending,
ties broken by creation timestamp descending. -/
abbrev claimOrderRel (a b : SearchResult) : Prop :=
  a.score > b.score ∨ (a.score = b.score ∧ strLeB b.row.created a.row.created = true)

theorem orderedInsert_rel_congr {α : Type} (r s : α → α → Prop)
    [DecidableRel r] [DecidableRel s] (h : ∀ a b, r a b ↔ s a b) (x : α) :
    ∀ l : List α, List.orderedInsert r x l = List.orderedInsert s x l := by
  intro l
  induction l with
  | nil => rfl
  | cons y ys ih =>
      simp only [List.orderedInsert]
      exact if_congr (h x y) rfl (congrArg _ ih)

theorem insertionSort_rel_congr {α : Type} (r s : α → α → Prop)
    [DecidableRel r] [DecidableRel s] (h : ∀ a b, r a b ↔ s a b) :
    ∀ l : List α, List.insertionSort r l = List.insertionSort s l := by
  intro l
  induction l with
  | nil => rfl
  | cons y ys ih =>
      simp only [List.insertionSort]
      rw [ih]
      exact orderedInsert_rel_congr r s h y _

theorem mergeKeyRel_iff_claimOrderRel (a b : SearchResult) :
    mergeKeyRel a b ↔ claimOrderRel a b := by
  constructor
  · rintro (h | ⟨h1, h2⟩)
    · exact Or.inl h
    · exact Or.inr ⟨h1.symm, h2⟩
  · rintro (h | ⟨h1, h2⟩)
    · exact Or.inl h
    · exact Or.inr ⟨h1.symm, h2⟩

/-- Claim C1's merge pipeline, written from the claim: deduplicate Stage 2
results by identifier against the set of Stage 1 identifiers (Stage 1
entries take precedence), concatenate after Stage 1, sort by relevance score
descending with ties broken by creation timestamp descending, truncate to
the limit. -/
def claimedMergePipeline (stage1 stage2 : List SearchResult) (lim : Nat) :
    List SearchResult :=
  let stage1Ids := stage1.map fun r => r.row.id
  let deduped := stage2.filter fun r => decide (r.row.id ∉ stage1Ids)
  (List.insertionSort claimOrderRel (stage1 ++ deduped)).take lim

/-- C1: for every index answer, captures table, non-whitespace query, limit,
app filter and threshold, the search output is exactly the claimed merge
pipeline applied to the Stage 1 results and the Stage 2 results (Stage 2
being empty whenever Stage 1 already fills the limit). -/
theorem c1_merge_pipeline (indexAnswer tableRows : List Row) (query : Str)
    (lim : Nat) (appFilter : Option Str) (minScore : ℚ)
    (h : pyStripEmpty query = false) :
    fuzzySearch indexAnswer tableRows query lim appFilter minScore =
      claimedMergePipeline
        (ftsSearch indexAnswer query lim appFilter)
        (if (ftsSearch indexAnswer query lim appFilter).length < lim then
          fuzzyFallback tableRows query
            (lim - (ftsSearch indexAnswer query lim appFilter).length) appFilter minScore
        else [])
        lim := by
  unfold fuzzySearch claimedMergePipeline
  rw [if_neg (by simp [h])]
  simp only []
  have hfil : ∀ s1 l2 : List SearchResult,
      (l2.filter fun r => !(s1.any fun f => f.row.id == r.row.id)) =
      (l2.filter fun r => decide (r.row.id ∉ s1.map fun f => f.row.id)) := by
    intro s1 l2
    apply List.filter_congr
    intro a _
    by_cases hm : a.row.id ∈ s1.map fun f => f.row.id
    · simp only [List.mem_map] at hm
      obtain ⟨f, hf, hfe⟩ := hm
      have : (s1.any fun f => f.row.id == a.row.id) = true := by
        rw [List.any_eq_true]
        exact ⟨f, hf, by simp [hfe]⟩
      simp [this, List.mem_map]
      exact ⟨f, hf, hfe⟩
    · have : (s1.any fun f => f.row.id == a.row.id) = false := by
        rw [List.any_eq_false]
        intro f hf
        simp only [beq_iff_eq]
        intro he
        exact hm (List.mem_map.mpr ⟨f, hf, he⟩)
      simp [this, hm]
  by_cases hlt : (ftsSearch indexAnswer query lim appFilter).length < lim
  · rw [if_pos hlt, if_pos hlt, hfil]
    rw [insertionSort_rel_congr mergeKeyRel claimOrderRel mergeKeyRel_iff_claimOrderRel]
  · rw [if_neg hlt, if_neg hlt]
    simp only [List.filter_nil, List.append_nil]
    rw [insertionSort_rel_congr mergeKeyRel claimOrderRel mergeKeyRel_iff_claimOrderRel]

/-- Witness for C1 at a concrete store, index answer and query. -/
theorem c1_merge_pipeline_witness :
    fuzzySearch [rowHello] [rowHello, rowXhello] helloQuery 2 none 0.2 =
      claimedMergePipeline
        (ftsSearch [rowHello] helloQuery 2 none)
        (if (ftsSearch [rowHello] helloQuery 2 none).length < 2 then
          fuzzyFallback [rowHello, rowXhello] helloQuery
            (2 - (ftsSearch [rowHello] helloQuery 2 none).length) none 0.2
        else [])
        2 :=
  c1_merge_pipeline [rowHello] [rowHello, rowXhello] helloQuery 2 none 0.2 (by decide)

/-! ### C10 — `min_score` does not apply to Stage 1 -/

/-- C10: every Stage 1 hit appears in the final search output, whatever
`min_score` is — the threshold gates only the fallback, and the merge never
evicts a Stage 1 result, because Stage 2 contributes at most the shortfall
`lim - |Stage 1|`. -/
theorem c10_stage1_ignores_min_score (indexAnswer tableRows : List Row)
    (query : Str) (lim : Nat) (appFilter : Option Str) (minScore : ℚ)
    (h : pyStripEmpty query = false) :
    ∀ r ∈ ftsSearch indexAnswer query lim appFilter,
      r ∈ fuzzySearch indexAnswer tableRows query lim appFilter minScore := by
  intro r hr
  unfold fuzzySearch
  rw [if_neg (by simp [h])]
  have hs1len : (ftsSearch indexAnswer query lim appFilter).length ≤ lim := by
    unfold ftsSearch
    rw [List.length_map]
    exact List.length_take_le _ _
  set combined :=
    if (ftsSearch indexAnswer query lim appFilter).length < lim then
      ftsSearch indexAnswer query lim appFilter ++
        (fuzzyFallback tableRows query
          (lim - (ftsSearch indexAnswer query lim appFilter).length) appFilter
          minScore).filter fun r2 =>
            !((ftsSearch indexAnswer query lim appFilter).any fun f =>
              f.row.id == r2.row.id)
    else ftsSearch indexAnswer query lim appFilter with hcomb
  have hmem : r ∈ combined := by
    rw [hcomb]
    split
    · exact List.mem_append_left _ hr
    · exact hr
  have hlen : combined.length ≤ lim := by
    rw [hcomb]
    split
    · rename_i hlt
      rw [List.length_append]
      have h1 : ((fuzzyFallback tableRows query
          (lim - (ftsSearch indexAnswer query lim appFilter).length) appFilter
          minScore).filter fun r2 =>
            !((ftsSearch indexAnswer query lim appFilter).any fun f =>
              f.row.id == r2.row.id)).length ≤
          lim - (ftsSearch indexAnswer query lim appFilter).length := by
        calc ((fuzzyFallback tableRows query
            (lim - (ftsSearch indexAnswer query lim appFilter).length) appFilter
            minScore).filter fun r2 =>
              !((ftsSearch indexAnswer query lim appFilter).any fun f =>
                f.row.id == r2.row.id)).length ≤
            (fuzzyFallback tableRows query
              (lim - (ftsSearch indexAnswer query lim appFilter).length) appFilter
              minScore).length := List.length_filter_le _ _
          _ ≤ lim - (ftsSearch indexAnswer query lim appFilter).length := by
              unfold fuzzyFallback
              exact List.length_take_le _ _
      omega
    · exact hs1len
  rw [List.take_of_length_le
    (by rw [(List.perm_insertionSort mergeKeyRel combined).length_eq]; exact hlen)]
  exact (List.perm_insertionSort mergeKeyRel combined).mem_iff.mpr hmem

/-- Witness for C10: with `min_score = 0.9`, a Stage 1 hit scoring 0.85 is
still returned, so the output contains a result below the threshold. -/
theorem c10_stage1_ignores_min_score_witness :
    mkResult helloQuery rowWorldly (17/20) ∈ ftsSearch [rowWorldly] helloQuery 1 none ∧
    mkResult helloQuery rowWorldly (17/20) ∈
      fuzzySearch [rowWorldly] [rowWorldly] helloQuery 1 none 0.9 ∧
    (mkResult helloQuery rowWorldly (17/20)).score < 0.9 :=
  ⟨by decide,
    c10_stage1_ignores_min_score [rowWorldly] [rowWorldly] helloQuery 1 none 0.9
      (by decide) _ (by decide),
    by decide⟩

/-! ### C4 — the fallback stage's candidate pool -/

/-- The fuzzy fallback as claim C4 words it: the candidate pool consists of
the at most `3 × lim` most-recent (app-filtered) captures **that were not
already returned by Stage 1**; candidates scoring below `min_score` are
discarded, and only the top `lim` by score are kept. -/
def claimedFuzzyFallback (tableRows : List Row) (stage1Ids : List Nat) (query : Str)
    (lim : Nat) (appFilter : Option Str) (minScore : ℚ) : List SearchResult :=
  let pool := ((sortByCreatedDesc (tableRows.filter (appCond appFilter))).filter fun r =>
    decide (r.id ∉ stage1Ids)).take (lim * 3)
  let results := pool.filterMap fun r =>
    let s := fallbackScore r.content query
    if minScore ≤ s then some (mkResult query r s) else none
  (List.insertionSort scoreDescRel results).take lim

/-- The whole search as claim C4 describes it: identical to the code except
that the fallback pool excludes the captures Stage 1 already returned. -/
def claimedSearchC4 (indexAnswer tableRows : List Row) (query : Str) (lim : Nat)
    (appFilter : Option Str) (minScore : ℚ) : List SearchResult :=
  if pyStripEmpty query then []
  else
    let ftsResults := ftsSearch indexAnswer query lim appFilter
    let combined :=
      if ftsResults.length < lim then
        let fuzzyResults := claimedFuzzyFallback tableRows
          (ftsResults.map fun r => r.row.id) query (lim - ftsResults.length)
          appFilter minScore
        ftsResults ++ fuzzyResults.filter fun r =>
          !(ftsResults.any fun f => f.row.id == r.row.id)
      else ftsResults
    (List.insertionSort mergeKeyRel combined).take lim

/-- Counterexample to C4 as stated: the code's pool does **not** exclude
captures already returned by Stage 1.  With the table `[rowHello,
rowXhello]`, index answer `[rowHello]`, query "hello world", limit 2 and
threshold 0.2, the code's fallback pool is `[rowHello, rowXhello]`; the
already-returned `rowHello` (similarity 1) crowds `rowXhello` (similarity
47/170) out of the single fallback slot and is then dropped as a duplicate,
so the code returns only `rowHello` — while the claimed pool-exclusion
pipeline returns both rows. -/
theorem c4_pool_counterexample :
    fuzzySearch [rowHello] [rowHello, rowXhello] helloQuery 2 none 0.2 =
      [mkResult helloQuery rowHello 1] ∧
    claimedSearchC4 [rowHello] [rowHello, rowXhello] helloQuery 2 none 0.2 =
      [mkResult helloQuery rowHello 1, mkResult helloQuery rowXhello (47/170)] ∧
    fuzzySearch [rowHello] [rowHello, rowXhello] helloQuery 2 none 0.2 ≠
      claimedSearchC4 [rowHello] [rowHello, rowXhello] helloQuery 2 none 0.2 :=
  ⟨by decide, by decide, by decide⟩

/-- The fallback as the amended claim describes it: the pool is the at most
`3 × lim` most-recent (app-filtered) captures regardless of Stage 1; each is
scored, sub-threshold candidates are discarded, and the top `lim` by score
are kept (duplicates with Stage 1 are removed only later, at the merge). -/
def amendedFallbackPipeline (tableRows : List Row) (query : Str) (lim : Nat)
    (appFilter : Option Str) (minScore : ℚ) : List SearchResult :=
  let pool := (sortByCreatedDesc (tableRows.filter (appCond appFilter))).take (lim * 3)
  let scored := pool.map fun r => mkResult query r (fallbackScore r.content query)
  let kept := scored.filter fun r => decide (minScore ≤ r.score)
  (List.insertionSort scoreDescRel kept).take lim

theorem filterMap_ite_eq_filter_map {α β : Type} (g : α → β) (p : β → Prop)
    [DecidablePred p] :
    ∀ l : List α,
      (l.filterMap fun a => if p (g a) then some (g a) else none) =
        (l.map g).filter fun b => decide (p b) := by
  intro l
  induction l with
  | nil => rfl
  | cons x xs ih =>
      rw [List.filterMap_cons, List.map_cons, List.filter_cons]
      by_cases hx : p (g x)
      · rw [if_pos hx, ih]
        simp [hx]
      · rw [if_neg hx, ih]
        simp [hx]

/-- C4 amended: the fallback runs only on a Stage 1 shortfall (with Stage 1
filling the limit, the output does not depend on the captures table at all),
and its pool is the `3 × remaining` most-recent captures **with no exclusion
of Stage 1's rows**; below-threshold candidates are discarded and the top
`remaining` by score kept. -/
theorem c4_fallback_amended :
    (∀ (tableRows : List Row) (query : Str) (lim : Nat) (appFilter : Option Str)
      (minScore : ℚ),
      fuzzyFallback tableRows query lim appFilter minScore =
        amendedFallbackPipeline tableRows query lim appFilter minScore) ∧
    (∀ (indexAnswer tableRows tableRows2 : List Row) (query : Str) (lim : Nat)
      (appFilter : Option Str) (minScore : ℚ), pyStripEmpty query = false →
      ¬ (ftsSearch indexAnswer query lim appFilter).length < lim →
      fuzzySearch indexAnswer tableRows query lim appFilter minScore =
        fuzzySearch indexAnswer tableRows2 query lim appFilter minScore) := by
  constructor
  · intro tableRows query lim appFilter minScore
    unfold fuzzyFallback amendedFallbackPipeline
    simp only []
    rw [show ((sortByCreatedDesc (tableRows.filter (appCond appFilter))).take
        (lim * 3)).filterMap (fun r =>
          if minScore ≤ fallbackScore r.content query then
            some (mkResult query r (fallbackScore r.content query)) else none) =
        (((sortByCreatedDesc (tableRows.filter (appCond appFilter))).take
          (lim * 3)).map fun r => mkResult query r (fallbackScore r.content query)).filter
          (fun b => decide (minScore ≤ b.score)) from
      filterMap_ite_eq_filter_map (fun r => mkResult query r (fallbackScore r.content query))
        (fun b => minScore ≤ b.score) _]
  · intro indexAnswer tableRows tableRows2 query lim appFilter minScore h hge
    unfold fuzzySearch
    rw [if_neg (by simp [h]), if_neg (by simp [h])]
    simp only []
    rw [if_neg hge, if_neg hge]

/-- Witness for the amended C4 at concrete inputs: the fallback equals the
amended pipeline on a concrete store, and with a full Stage 1 the output
ignores the captures table. -/
theorem c4_fallback_amended_witness :
    fuzzyFallback [rowHello, rowXhello] helloQuery 1 none 0.2 =
      amendedFallbackPipeline [rowHello, rowXhello] helloQuery 1 none 0.2 ∧
    fuzzySearch [rowHello] [rowXhello] helloQuery 1 none 0.3 =
      fuzzySearch [rowHello] [] helloQuery 1 none 0.3 :=
  ⟨c4_fallback_amended.1 [rowHello, rowXhello] helloQuery 1 none 0.2,
    c4_fallback_amended.2 [rowHello] [rowXhello] [] helloQuery 1 none 0.3
      (by decide) (by decide)⟩

end Saver
